import Mathlib

/-!
Verification development for the lenskit item-item k-NN core: a shallow
embedding of the MKL sparse-operation bindings and of the item-item
similarity / prediction algorithms, with theorems checking the
natural-language specification against the embedded code.

Float values are modelled by exact rationals; where IEEE float behaviour
matters (division by zero producing NaN, NaN-skipping sums) the modelling
is noted at the definition.
-/

namespace LensKit

/-! ## Sparse matrices and the MKL binding -/

/-- Compressed sparse row matrix. Numeric entries are modelled as rationals. -/
structure CSR where
  nrows : ℕ
  ncols : ℕ
  rowptrs : List ℕ
  colinds : List ℕ
  values : List ℚ
deriving DecidableEq

/-- Dot product of CSR row i with a dense vector, as read by the native
multiply: entries k in the range given by rowptrs pair values with the
vector at colinds. -/
def CSR.rowDot (A : CSR) (i : ℕ) (x : List ℚ) : ℚ :=
  let s := A.rowptrs.getD i 0
  let e := A.rowptrs.getD (i + 1) 0
  ((List.range (e - s)).map (fun j =>
      A.values.getD (s + j) 0 * x.getD (A.colinds.getD (s + j) 0) 0)).sum

/-- Content written by the native spmv call: alpha * A * x + beta * y. -/
def spmvResult (alpha : ℚ) (A : CSR) (x : List ℚ) (beta : ℚ) (y : List ℚ) : List ℚ :=
  (List.range A.nrows).map (fun i => alpha * A.rowDot i x + beta * y.getD i 0)

/-- Python exception classes raised by the binding. ValueError and
RuntimeError are sibling classes; neither subclasses the other. -/
inductive PyErr where
  | runtimeError (msg : String)
  | valueError (msg : String)
deriving DecidableEq

/-- True exactly for the RuntimeError class. -/
def PyErr.isRuntimeClass : PyErr → Bool
  | .runtimeError _ => true
  | .valueError _ => false

/-- The mkl error-name table from the binding, in code order. -/
def _mkl_errors : List String :=
  ["SPARSE_STATUS_SUCCESS",
   "SPARSE_STATUS_NOT_INITIALIZED",
   "SPARSE_STATUS_ALLOC_FAILED",
   "SPARSE_STATUS_INVALID_VALUE",
   "SPARSE_STATUS_EXECUTION_FAILED",
   "SPARSE_STATUS_INTERNAL_ERROR",
   "SPARSE_STATUS_NOT_SUPPORTED"]

/-- Description chosen by the check: the indexed table entry when the code is
in range, the string unknown otherwise. -/
def mklDesc (rv : Int) : String :=
  if 0 ≤ rv ∧ rv < (_mkl_errors.length : Int) then _mkl_errors.getD rv.toNat ("unknown")
  else "unknown"

/-- The message format used by the check: call name, raw code, description. -/
def mklMessage (call : String) (rv : Int) (desc : String) : String :=
  "MKL call " ++ call ++ " failed with code " ++ toString rv ++ " (" ++ desc ++ ")"

/-- Embedding of the check on native status codes: a nonzero (truthy) code
raises RuntimeError with the formatted message. -/
def _mkl_check_return (rv : Int) (call : String) : Except PyErr Unit :=
  if rv ≠ 0 then .error (.runtimeError (mklMessage call rv (mklDesc rv))) else .ok ()

/-- Status enumeration named by the spec. -/
inductive MKLStatus where
  | Success
  | NotInitialized
  | AllocFailed
  | InvalidValue
  | ExecutionFailed
  | InternalError
  | NotSupported
  | Unknown
deriving DecidableEq

/-- Modelled from the spec words for comparison with the code: codes 0
through 6 map respectively to Success through NotSupported, every other
value maps to Unknown. -/
def statusMap (rv : Int) : MKLStatus :=
  if rv = 0 then .Success
  else if rv = 1 then .NotInitialized
  else if rv = 2 then .AllocFailed
  else if rv = 3 then .InvalidValue
  else if rv = 4 then .ExecutionFailed
  else if rv = 5 then .InternalError
  else if rv = 6 then .NotSupported
  else .Unknown

/-- The source string that names each abstract status. -/
def statusName : MKLStatus → String
  | .Success => "SPARSE_STATUS_SUCCESS"
  | .NotInitialized => "SPARSE_STATUS_NOT_INITIALIZED"
  | .AllocFailed => "SPARSE_STATUS_ALLOC_FAILED"
  | .InvalidValue => "SPARSE_STATUS_INVALID_VALUE"
  | .ExecutionFailed => "SPARSE_STATUS_EXECUTION_FAILED"
  | .InternalError => "SPARSE_STATUS_INTERNAL_ERROR"
  | .NotSupported => "SPARSE_STATUS_NOT_SUPPORTED"
  | .Unknown => "unknown"

/-- A store of numpy buffers addressed by object identity. -/
def Heap : Type := ℕ → List ℚ

/-- Pointwise update of a heap at one buffer identity. -/
def hupd (h : Heap) (i : ℕ) (v : List ℚ) : Heap :=
  fun j => if j = i then v else h j

/-- Models numpy require of y as float64 C-order: when y already has that
layout the same object is returned; otherwise a fresh converted buffer is
allocated carrying the same contents. -/
def npRequire (h : Heap) (next : ℕ) (y : ℕ) (alreadyF64C : Bool) : ℕ × Heap × ℕ :=
  if alreadyF64C then (y, h, next) else (next, hupd h next (h y), next + 1)

/-- SparseM.mult_vec: yout = require(y); if yout is y then yout = yout.copy();
the native call writes alpha * A * x + beta * yout into the yout buffer; a
nonzero status then raises through the check. Returns the result buffer or
the raised error, together with the final heap and allocator bound. -/
def mult_vec (alpha : ℚ) (A : CSR) (x : List ℚ) (beta : ℚ)
    (y : ℕ) (h : Heap) (next : ℕ) (yF64C : Bool) (status : Int) :
    Except PyErr ℕ × Heap × ℕ :=
  let r1 := npRequire h next y yF64C
  let yout := r1.1
  let h1 := r1.2.1
  let n1 := r1.2.2
  let r2 := if yout = y then (n1, hupd h1 n1 (h1 yout), n1 + 1) else (yout, h1, n1)
  let yout2 := r2.1
  let h2 := r2.2.1
  let n2 := r2.2.2
  let h3 := hupd h2 yout2 (spmvResult alpha A x beta (h2 yout2))
  match _mkl_check_return status ("mkl_sparse_d_mv") with
  | .ok _ => (.ok yout2, h3, n2)
  | .error e => (.error e, h3, n2)

/-- The wrapper for a native sparse handle; from_csr always fills ptr. -/
structure SparseM where
  ptr : ℕ
deriving DecidableEq

/-- Struct returned by the native export call. -/
structure MKLExportRec where
  nrows : Int
  ncols : ℕ
  row_sp : List ℕ
  row_ep : List ℕ
  colinds : List ℕ
  values : List ℚ

/-- Oracle for the native library: results of the native calls made by the
binding (a null pointer is none). -/
structure MKLLib where
  spcreate : CSR → Option ℕ
  sporder : ℕ → Int
  spsyrk : ℕ → Option ℕ
  spexport : ℕ → MKLExportRec

/-- Running sums turning per-row sizes into CSR row pointers. -/
def prefixSums : List ℕ → List ℕ
  | [] => [0]
  | a :: l => 0 :: (prefixSums l).map (fun s => a + s)

/-- SparseM.export: a negative reported row count raises RuntimeError; else
each row's slice [row_sp i, row_ep i) of the native arrays is copied into
contiguous output storage. -/
def exportCSR (rvs : MKLExportRec) : Except PyErr CSR :=
  if rvs.nrows < 0 then .error (.runtimeError ("MKL sparse export failed"))
  else
    let nr := rvs.nrows.toNat
    let sizes := (List.range nr).map (fun i => rvs.row_ep.getD i 0 - rvs.row_sp.getD i 0)
    let cis := (List.range nr).flatMap (fun i =>
      (rvs.colinds.drop (rvs.row_sp.getD i 0)).take (rvs.row_ep.getD i 0 - rvs.row_sp.getD i 0))
    let vs := (List.range nr).flatMap (fun i =>
      (rvs.values.drop (rvs.row_sp.getD i 0)).take (rvs.row_ep.getD i 0 - rvs.row_sp.getD i 0))
    .ok ⟨nr, rvs.ncols, prefixSums sizes, cis, vs⟩

/-- SparseM.from_csr: a null handle from the native create raises
RuntimeError naming matrix creation. -/
def from_csr (lib : MKLLib) (csr : CSR) : Except PyErr SparseM :=
  match lib.spcreate csr with
  | none => .error (.runtimeError ("MKL matrix creation failed"))
  | some p => .ok ⟨p⟩

/-- csr_syrk: create the handle, order it (status checked), run the native
syrk (a null result raises ValueError), then export the product. -/
def csr_syrk (lib : MKLLib) (csr : CSR) : Except PyErr CSR :=
  match from_csr lib csr with
  | .error e => .error e
  | .ok src =>
    match _mkl_check_return (lib.sporder src.ptr) ("mkl_sparse_order") with
    | .error e => .error e
    | .ok _ =>
      match lib.spsyrk src.ptr with
      | none => .error (.valueError ("SYRK failed"))
      | some p2 => exportCSR (lib.spexport p2)

/-! ## Training: normalization and the similarity matrix -/

/-- Arithmetic mean of a rating vector. -/
def mean (x : List ℚ) : ℚ := x.sum / (x.length : ℚ)

/-- The mean-centered vector xmc = x - x.mean(). -/
def meanCenter (x : List ℚ) : List ℚ := x.map (fun r => r - mean x)

/-- Squared euclidean norm of the centered vector. -/
def normSq (x : List ℚ) : ℚ := ((meanCenter x).map (fun c => c * c)).sum

/-- Division of a centered entry c by the euclidean norm of the vector,
carried symbolically: the pair (c, s) denotes the real number c divided by
the square root of s when s is nonzero, while none models the undefined
IEEE result of dividing by a zero norm (every centered entry is then 0, so
each entry is 0/0 = NaN). -/
def normDiv (c s : ℚ) : Option (ℚ × ℚ) := if s = 0 then none else some (c, s)

/-- The normalize step of training: xmc divided entrywise by norm(xmc),
with no guard on a zero norm. -/
def normalize (x : List ℚ) : List (Option (ℚ × ℚ)) :=
  (meanCenter x).map (fun c => normDiv c (normSq x))

/-- One row of the uir frame: a user-item-rating triple. -/
structure Rating where
  user : ℕ
  item : ℕ
  rating : ℚ
deriving DecidableEq

/-- The irdf group: all uir rows whose item is the target. -/
def itemRows (uir : List Rating) (t : ℕ) : List Rating :=
  uir.filter (fun r => r.item == t)

/-- One row of irdf joined with uir on user (inner join): the target rating
columns renamed tgt_item and tgt_rating next to the joined item and rating. -/
structure JRow where
  user : ℕ
  tgt_item : ℕ
  tgt_rating : ℚ
  item : ℕ
  rating : ℚ
deriving DecidableEq

/-- irdf.join(uir, on user, how inner): each target row pairs with every uir
row of the same user. -/
def joinedRows (uir : List Rating) (t : ℕ) : List JRow :=
  (itemRows uir t).flatMap (fun l =>
    (uir.filter (fun r => r.user == l.user)).map (fun r =>
      ⟨l.user, l.item, l.rating, r.item, r.rating⟩))

/-- The self-exclusion filter: joined rows with tgt_item equal to item are
dropped before the products are summed. -/
def joinedNE (uir : List Rating) (t : ℕ) : List JRow :=
  (joinedRows uir t).filter (fun q => q.tgt_item != q.item)

/-- Insertion into a strictly ascending list of keys, merging duplicates;
models the sorted unique key index of a pandas groupby. -/
def insertAsc (x : ℕ) : List ℕ → List ℕ
  | [] => [x]
  | y :: ys => if x < y then x :: y :: ys else if x = y then y :: ys else y :: insertAsc x ys

/-- Sorted distinct keys of a list. -/
def sortedKeys (l : List ℕ) : List ℕ := l.foldr insertAsc []

/-- groupby(item).rp.sum(): ascending item keys, each paired with the sum of
tgt_rating * rating over its rows. -/
def groupSums (j : List JRow) : List (ℕ × ℚ) :=
  (sortedKeys (j.map (fun q => q.item))).map (fun k =>
    (k, ((j.filter (fun q => q.item == k)).map (fun q => q.tgt_rating * q.rating)).sum))

/-- Ordering used by nlargest: descending by similarity. Insertion into an
already sorted list places an entry after every entry of greater or equal
similarity, which is the stable keep-first tie policy of pandas. -/
def simGE (a b : ℕ × ℚ) : Prop := b.2 ≤ a.2

instance : DecidableRel simGE := fun a b => inferInstanceAs (Decidable (b.2 ≤ a.2))

instance : IsTotal (ℕ × ℚ) simGE := ⟨fun a b => le_total b.2 a.2⟩

instance : IsTrans (ℕ × ℚ) simGE := ⟨fun _ _ _ h1 h2 => le_trans h2 h1⟩

/-- pandas Series.nlargest n: stable descending sort by value, first n kept. -/
def nlargest (n : ℕ) (l : List (ℕ × ℚ)) : List (ℕ × ℚ) :=
  (List.insertionSort simGE l).take n

/-- sim_row from the pure-python similarity path: join the target item's
ratings with all ratings of the same users, drop the self pairs, multiply
paired ratings and sum by neighbor item, filter by the minimum similarity
when one is set, and keep the save_neighbors largest when a cap is set. -/
def sim_row (minSim : Option ℚ) (saveNbrs : Option ℕ) (uir : List Rating) (t : ℕ) :
    List (ℕ × ℚ) :=
  let sims0 := groupSums (joinedNE uir t)
  let sims1 := match minSim with
    | some m => sims0.filter (fun p => decide (m ≤ p.2))
    | none => sims0
  match saveNbrs with
  | some k => nlargest k sims1
  | none => sims1

/-- Distinct items of the uir frame in first appearance order (the groups of
groupby(item, sort false)). -/
def firstSeenItems (uir : List Rating) : List ℕ :=
  (uir.map (fun r => r.item)).foldl (fun acc x => if x ∈ acc then acc else acc ++ [x]) []

/-- The neighborhoods produced by _py_matrix: per item, its sim_row. -/
def _py_matrix (minSim : Option ℚ) (saveNbrs : Option ℕ) (uir : List Rating) :
    List (ℕ × List (ℕ × ℚ)) :=
  (firstSeenItems uir).map (fun t => (t, sim_row minSim saveNbrs uir t))

/-! ## Prediction -/

/-- An item-indexed vector of rationals. -/
abbrev Pairs := List (ℕ × ℚ)

/-- The trained model: per-item means, the per-item neighbor lists, and the
user-item rating lookup. -/
structure IIModel where
  item_means : Pairs
  sim_matrix : List (ℕ × Pairs)
  rating_matrix : List (ℕ × ℕ × ℚ)

/-- Mean of one item, when the item has one. -/
def meanOf (means : Pairs) (i : ℕ) : Option ℚ :=
  (means.find? (fun p => p.1 == i)).map (fun p => p.2)

/-- model.rating_matrix.loc[user]: the item-indexed ratings of one user. -/
def userRatings (rm : List (ℕ × ℕ × ℚ)) (u : ℕ) : Pairs :=
  (rm.filter (fun r => r.1 == u)).map (fun r => (r.2.1, r.2.2))

/-- ratings -= model.item_means: pandas subtracts in place, reindexing the
intermediate back to the original index, so the keys are unchanged and each
value becomes rating minus item mean; an item without a mean gets the
undefined value none (NaN). -/
def centerRatings (means : Pairs) (rats : Pairs) : List (ℕ × Option ℚ) :=
  rats.map (fun p => (p.1, (meanOf means p.1).map (fun m => p.2 - m)))

/-- The stored neighbor list of one item (empty when the item is absent). -/
def simOf (sim : List (ℕ × Pairs)) (t : ℕ) : Pairs :=
  ((sim.find? (fun p => p.1 == t)).map (fun p => p.2)).getD []

/-- The neighborhood rows of one item after the isin(ratings.index) filter:
stored neighbors the user has rated, in stored order. -/
def usableNbrs (sim : List (ℕ × Pairs)) (ratKeys : List ℕ) (t : ℕ) : Pairs :=
  (simOf sim t).filter (fun p => ratKeys.contains p.1)

/-- Rank of the row at position i with similarity v inside its item group,
method first, descending: one plus the number of rows with larger
similarity, or equal similarity at an earlier position. -/
def rankFirstDesc (g : Pairs) (i : ℕ) (v : ℚ) : ℕ :=
  1 + (g.enum.filter (fun q => decide (v < q.2.2) || (q.2.2 == v && decide (q.1 < i)))).length

/-- nbrhoods[ranks <= max_neighbors]: rows within the rank cap, original
order preserved; no cap when max_neighbors is None. -/
def capRows (maxN : Option ℕ) (g : Pairs) : Pairs :=
  match maxN with
  | none => g
  | some k => (g.enum.filter (fun q => rankFirstDesc g q.1 q.2.2 ≤ k)).map (fun q => q.2)

/-- Number of usable neighbors of one target item after the cap. -/
def usableCount (maxN : Option ℕ) (sim : List (ℕ × Pairs)) (ratKeys : List ℕ) (t : ℕ) : ℕ :=
  (capRows maxN (usableNbrs sim ratKeys t)).length

/-- Lookup in the centered ratings (an item-indexed vector with possibly
undefined values). -/
def lookupC (crats : List (ℕ × Option ℚ)) (n : ℕ) : Option (Option ℚ) :=
  (crats.find? (fun p => p.1 == n)).map (fun p => p.2)

/-- The ratings predict works with: the supplied vector, or the rating
matrix row of the user. -/
def ratsOf (model : IIModel) (user : ℕ) (ratings? : Option Pairs) : Pairs :=
  match ratings? with
  | some r => r
  | none => userRatings model.rating_matrix user

/-- The per-item apply step of predict: the numerator multiplies
similarities with the centered ratings, skipping undefined (NaN) entries as
the pandas sum does, while the denominator sums all capped similarities;
the item mean of the target is then added back (an absent mean makes the
whole score undefined). Division is rational division (a zero denominator
would be an IEEE NaN). -/
def predScore (model : IIModel) (crats : List (ℕ × Option ℚ)) (g : Pairs) (t : ℕ) :
    Option ℚ :=
  let num := (g.map (fun p =>
      match lookupC crats p.1 with
      | some (some c) => p.2 * c
      | _ => 0)).sum
  let den := (g.map (fun p => p.2)).sum
  (meanOf model.item_means t).map (fun m => num / den + m)

/-- ItemItem.predict. The min_neighbors field of the algorithm is in scope
but the body never reads it (the source marks this path FIXME). The ratings
are resolved and centered in place, the neighborhood rows of each candidate
are filtered to rated neighbors and capped by rank, and each candidate with
a nonempty neighborhood is scored; the final groupby sorts scored items
ascending. Returns the score mapping together with the caller's ratings
buffer content after the call: the in-place centering has mutated it
whenever the caller supplied one. -/
def predict (min_neighbors : ℕ) (maxN : Option ℕ) (model : IIModel) (user : ℕ)
    (items : List ℕ) (ratings? : Option Pairs) :
    List (ℕ × Option ℚ) × Option (List (ℕ × Option ℚ)) :=
  let rats := ratsOf model user ratings?
  let crats := centerRatings model.item_means rats
  let ratKeys := rats.map (fun p => p.1)
  let scored := sortedKeys (items.filter (fun t =>
      !(capRows maxN (usableNbrs model.sim_matrix ratKeys t)).isEmpty))
  let results := scored.map (fun t =>
      (t, predScore model crats (capRows maxN (usableNbrs model.sim_matrix ratKeys t)) t))
  (results, match ratings? with
    | some _ => some crats
    | none => none)

/-- Lookup of one item's score in the prediction output. -/
def resultLookup (res : List (ℕ × Option ℚ)) (t : ℕ) : Option (Option ℚ) :=
  (res.find? (fun p => p.1 == t)).map (fun p => p.2)

/-- The user's raw rating of one item (0 when absent; the uses below are
guarded so the default is never taken). -/
def ratValue (rats : Pairs) (n : ℕ) : ℚ :=
  ((rats.find? (fun p => p.1 == n)).map (fun p => p.2)).getD 0

/-- Modelled from the spec words for comparison with the embedded predict:
score = (sum of similarity times centered rating) / (sum of similarity)
plus the target item mean, the sums ranging over the usable neighbors after
the max_neighbors cap, the centered rating being the user's rating of the
neighbor minus that neighbor's item mean. -/
def specScore (model : IIModel) (rats : Pairs) (maxN : Option ℕ) (t : ℕ) : ℚ :=
  let g := capRows maxN (usableNbrs model.sim_matrix (rats.map (fun p => p.1)) t)
  let num := (g.map (fun p =>
      p.2 * (ratValue rats p.1 - ((meanOf model.item_means p.1).getD 0)))).sum
  let den := (g.map (fun p => p.2)).sum
  num / den + ((meanOf model.item_means t).getD 0)

/-! ## Concrete instances used by counterexamples and witnesses -/

/-- A one-entry CSR matrix. -/
def exCsr : CSR := ⟨1, 1, [0, 1], [0], [1]⟩

/-- A library whose create succeeds, order reports success, and syrk
returns null. -/
def exLibSyrkNull : MKLLib :=
  ⟨fun _ => some 7, fun _ => 0, fun _ => none, fun _ => ⟨0, 0, [], [], [], []⟩⟩

/-- A library whose create returns null. -/
def exLibCreateNull : MKLLib :=
  ⟨fun _ => none, fun _ => 0, fun _ => none, fun _ => ⟨0, 0, [], [], [], []⟩⟩

/-- One user rating items 0, 1 and 2; the similarity of target 0 with
neighbor 2 exceeds that with neighbor 1. -/
def exUir : List Rating := [⟨0, 0, 1⟩, ⟨0, 1, 1⟩, ⟨0, 2, 2⟩]

/-- Model with zero means: item 2 has the single stored neighbor 1. -/
def exModel : IIModel := ⟨[(1, 0), (2, 0)], [(2, [(1, 1)])], []⟩

/-- Model with nonzero means: centering visibly rewrites the ratings. -/
def exModel3 : IIModel := ⟨[(1, 3), (2, 3)], [(2, [(1, 1)])], []⟩

/-! ## Theorems: the MKL binding -/

/-- The description computed by the check agrees with the spec's status
mapping, read through the naming of each status. -/
theorem mklDesc_eq_statusName (rv : Int) : mklDesc rv = statusName (statusMap rv) := by
  by_cases e0 : rv = 0
  · subst e0; rfl
  by_cases e1 : rv = 1
  · subst e1; rfl
  by_cases e2 : rv = 2
  · subst e2; rfl
  by_cases e3 : rv = 3
  · subst e3; rfl
  by_cases e4 : rv = 4
  · subst e4; rfl
  by_cases e5 : rv = 5
  · subst e5; rfl
  by_cases e6 : rv = 6
  · subst e6; rfl
  have hout : ¬ (0 ≤ rv ∧ rv < (_mkl_errors.length : Int)) := by
    have hlen : (_mkl_errors.length : Int) = 7 := by rfl
    rw [hlen]; omega
  simp [mklDesc, statusMap, statusName, hout, e0, e1, e2, e3, e4, e5, e6]

/-- C8. The check raises exactly on a nonzero status; the raised error is a
RuntimeError whose message carries the call name, the raw code, and the
description obtained by mapping codes 0 through 6 respectively to Success,
NotInitialized, AllocFailed, InvalidValue, ExecutionFailed, InternalError,
NotSupported, and every other value to Unknown. -/
theorem mkl_check_return_spec (rv : Int) (call : String) :
    (_mkl_check_return rv call = .ok () ↔ rv = 0)
    ∧ (rv ≠ 0 →
        _mkl_check_return rv call =
          .error (.runtimeError (mklMessage call rv (statusName (statusMap rv))))) := by
  constructor
  · constructor
    · intro h
      by_contra hrv
      simp [_mkl_check_return, hrv] at h
    · intro h
      simp [_mkl_check_return, h]
  · intro h
    rw [← mklDesc_eq_statusName]
    simp [_mkl_check_return, h]

/-- Witness for C8 at status code 3 on the ordering call. -/
theorem mkl_check_return_spec_witness :
    _mkl_check_return 3 ("mkl_sparse_order") =
      .error (.runtimeError (mklMessage ("mkl_sparse_order") 3 (statusName (statusMap 3)))) :=
  (mkl_check_return_spec 3 ("mkl_sparse_order")).2 (by decide)

/-- C7. mult_vec never hands back the caller's y buffer as its result and
leaves the caller's y buffer contents untouched, for any layout of y and
any native status. The hypothesis states the allocator invariant: the
identity of y is below the allocation bound. -/
theorem mult_vec_frame (alpha : ℚ) (A : CSR) (x : List ℚ) (beta : ℚ)
    (y : ℕ) (h : Heap) (next : ℕ) (yF64C : Bool) (status : Int)
    (hy : y < next) :
    (mult_vec alpha A x beta y h next yF64C status).2.1 y = h y
    ∧ (mult_vec alpha A x beta y h next yF64C status).1 ≠ .ok y := by
  have hne : ¬ next = y := by omega
  have hne2 : ¬ y = next := by omega
  cases hs : _mkl_check_return status ("mkl_sparse_d_mv") with
  | ok u =>
    cases yF64C <;>
      simp [mult_vec, npRequire, hupd, hs, hne, hne2]
  | error e =>
    cases yF64C <;>
      simp [mult_vec, npRequire, hupd, hs, hne, hne2]

/-- Witness for C7: a concrete call with an in-layout y buffer. -/
theorem mult_vec_frame_witness :
    (mult_vec 1 exCsr [1] 0 0 (fun _ => [2]) 1 true 0).2.1 0 = (fun _ => ([2] : List ℚ)) 0
    ∧ (mult_vec 1 exCsr [1] 0 0 (fun _ => [2]) 1 true 0).1 ≠ .ok 0 :=
  mult_vec_frame 1 exCsr [1] 0 0 (fun _ => [2]) 1 true 0 (by decide)

/-- C9 counterexample: when the native syrk returns null, csr_syrk raises
ValueError, which is not of the RuntimeError class. -/
theorem csr_syrk_null_raises_valueError :
    csr_syrk exLibSyrkNull exCsr = .error (.valueError ("SYRK failed"))
    ∧ (PyErr.valueError ("SYRK failed")).isRuntimeClass = false :=
  ⟨rfl, rfl⟩

/-- C9 amended: a null handle from matrix creation raises RuntimeError
naming the operation, while a null handle from the self-product raises
ValueError naming the operation. -/
theorem null_handle_errors (lib lib2 : MKLLib) (csr : CSR) (p : ℕ)
    (hnull : lib.spcreate csr = none)
    (hp : lib2.spcreate csr = some p) (ho : lib2.sporder p = 0) (hs : lib2.spsyrk p = none) :
    from_csr lib csr = .error (.runtimeError ("MKL matrix creation failed"))
    ∧ csr_syrk lib2 csr = .error (.valueError ("SYRK failed")) := by
  constructor
  · simp [from_csr, hnull]
  · simp [csr_syrk, from_csr, hp, ho, hs, _mkl_check_return]

/-- Witness for C9 amended, on the two concrete libraries. -/
theorem null_handle_errors_witness :
    from_csr exLibCreateNull exCsr = .error (.runtimeError ("MKL matrix creation failed"))
    ∧ csr_syrk exLibSyrkNull exCsr = .error (.valueError ("SYRK failed")) :=
  null_handle_errors exLibCreateNull exLibSyrkNull exCsr 7 rfl rfl rfl rfl

/-! ## Theorems: normalization -/

/-- A sum of zeros is zero. -/
theorem sum_map_zeroQ {α : Type} (l : List α) : (l.map (fun _ => (0 : ℚ))).sum = 0 := by
  induction l with
  | nil => rfl
  | cons a l ih => simp [ih]

/-- C3 counterexample: an item with the single rating 5 has all ratings
equal to its mean, yet normalize yields the undefined entry (NaN from
dividing by the zero norm) instead of applying any zero-or-skip policy. -/
theorem normalize_single_rating :
    normalize [(5 : ℚ)] = [none] ∧ mean [(5 : ℚ)] = 5 := by
  constructor
  · norm_num [normalize, meanCenter, mean, normSq, normDiv]
  · norm_num [mean]

/-- C3 amended: whenever all ratings of an item equal the item's mean, the
normalize step divides by the zero norm, and every entry of the result is
the undefined value. No explicit zero-or-skip branch exists in the code. -/
theorem normalize_zero_norm (x : List ℚ) (hx : ∀ r ∈ x, r = mean x) :
    normalize x = x.map (fun _ => none) := by
  have hc : meanCenter x = x.map (fun _ => (0 : ℚ)) := by
    unfold meanCenter
    refine List.map_congr_left ?_
    intro a ha
    rw [hx a ha]
    ring
  have hs : normSq x = 0 := by
    rw [normSq, hc, List.map_map]
    have hcomp : ((fun c : ℚ => c * c) ∘ fun _ : ℚ => (0 : ℚ)) = fun _ : ℚ => (0 : ℚ) := by
      funext a
      simp
    rw [hcomp]
    exact sum_map_zeroQ x
  rw [normalize, hc, hs, List.map_map]
  refine List.map_congr_left ?_
  intro a _
  simp [Function.comp, normDiv]

/-- Witness for C3 amended at a two-rating constant vector. -/
theorem normalize_zero_norm_witness :
    normalize [(5 : ℚ), 5] = [(5 : ℚ), 5].map (fun _ => none) :=
  normalize_zero_norm [5, 5] (by norm_num [mean])

/-! ## Theorems: the similarity matrix -/

/-- Membership in an ascending insertion. -/
theorem mem_insertAsc {x y : ℕ} : ∀ {l : List ℕ}, y ∈ insertAsc x l ↔ y = x ∨ y ∈ l := by
  intro l
  induction l with
  | nil => simp [insertAsc]
  | cons a l ih =>
    by_cases h1 : x < a
    · simp [insertAsc, h1]
    · by_cases h2 : x = a
      · subst h2
        simp [insertAsc, h1]
      · simp only [insertAsc, h1, h2, if_false, List.mem_cons, ih]
        tauto

/-- Ascending insertion preserves strict sortedness. -/
theorem pairwise_insertAsc (x : ℕ) : ∀ {l : List ℕ},
    l.Pairwise (· < ·) → (insertAsc x l).Pairwise (· < ·) := by
  intro l
  induction l with
  | nil => intro _; simp [insertAsc]
  | cons a l ih =>
    intro h
    rcases List.pairwise_cons.1 h with ⟨ha, hl⟩
    by_cases h1 : x < a
    · simp only [insertAsc, h1, if_true]
      refine List.pairwise_cons.2 ⟨?_, h⟩
      intro b hb
      rcases List.mem_cons.1 hb with rfl | hb2
      · exact h1
      · exact lt_trans h1 (ha b hb2)
    · by_cases h2 : x = a
      · subst h2
        simpa [insertAsc, h1] using h
      · have hax : a < x := by omega
        simp only [insertAsc, h1, h2, if_false]
        refine List.pairwise_cons.2 ⟨?_, ih hl⟩
        intro b hb
        rcases mem_insertAsc.1 hb with rfl | hb2
        · exact hax
        · exact ha b hb2

/-- The sorted key list is strictly ascending. -/
theorem pairwise_sortedKeys (l : List ℕ) : (sortedKeys l).Pairwise (· < ·) := by
  induction l with
  | nil => simp [sortedKeys]
  | cons a l ih => exact pairwise_insertAsc a ih

/-- The sorted key list has the same members. -/
theorem mem_sortedKeys {y : ℕ} : ∀ {l : List ℕ}, y ∈ sortedKeys l ↔ y ∈ l := by
  intro l
  induction l with
  | nil => simp [sortedKeys]
  | cons a l ih =>
    show y ∈ insertAsc a (sortedKeys l) ↔ _
    rw [mem_insertAsc, ih]
    simp [Or.comm]

/-- Keys of the group sums come from the grouped rows. -/
theorem mem_groupSums_key {p : ℕ × ℚ} {j : List JRow} (hp : p ∈ groupSums j) :
    p.1 ∈ j.map (fun q => q.item) := by
  unfold groupSums at hp
  rcases List.mem_map.1 hp with ⟨k, hk, rfl⟩
  exact mem_sortedKeys.1 hk

/-- Every joined row carries the target item in tgt_item. -/
theorem joinedRows_tgt {uir : List Rating} {t : ℕ} {q : JRow} (hq : q ∈ joinedRows uir t) :
    q.tgt_item = t := by
  unfold joinedRows at hq
  rcases List.mem_flatMap.1 hq with ⟨l, hl, hq2⟩
  rcases List.mem_map.1 hq2 with ⟨r, _, rfl⟩
  have hbeq := List.of_mem_filter hl
  simpa using hbeq

/-- Members of nlargest are members of the input. -/
theorem mem_nlargest {n : ℕ} {l : List (ℕ × ℚ)} {p : ℕ × ℚ} (hp : p ∈ nlargest n l) :
    p ∈ l := by
  unfold nlargest at hp
  have := List.mem_of_mem_take hp
  simpa using this

/-- nlargest output is descending by similarity. -/
theorem sorted_nlargest (n : ℕ) (l : List (ℕ × ℚ)) : (nlargest n l).Pairwise simGE :=
  (List.sorted_insertionSort simGE l).sublist (List.take_sublist n _)

/-- Decomposition of sim_row membership: the pair is one of the grouped dot
product sums, and it passed the minimum-similarity filter when one is set. -/
theorem mem_sim_row {minSim : Option ℚ} {saveNbrs : Option ℕ} {uir : List Rating} {t : ℕ}
    {p : ℕ × ℚ} (hp : p ∈ sim_row minSim saveNbrs uir t) :
    p ∈ groupSums (joinedNE uir t) ∧ ∀ m, minSim = some m → m ≤ p.2 := by
  have hp1 : p ∈ (match minSim with
      | some m => (groupSums (joinedNE uir t)).filter (fun q : ℕ × ℚ => decide (m ≤ q.2))
      | none => groupSums (joinedNE uir t)) := by
    cases saveNbrs with
    | none => exact hp
    | some k => exact mem_nlargest hp
  cases minSim with
  | none => exact ⟨hp1, by intro m hm; cases hm⟩
  | some m =>
    rcases List.mem_filter.1 hp1 with ⟨h1, h2⟩
    refine ⟨h1, ?_⟩
    intro m2 hm
    injection hm with hm
    subst hm
    exact of_decide_eq_true h2

/-- Entries fished out of the neighborhoods frame are the sim_row of their
item. -/
theorem mem_py_matrix {minSim : Option ℚ} {saveNbrs : Option ℕ} {uir : List Rating}
    {t : ℕ} {nbrs : List (ℕ × ℚ)} (h : (t, nbrs) ∈ _py_matrix minSim saveNbrs uir) :
    nbrs = sim_row minSim saveNbrs uir t := by
  unfold _py_matrix at h
  rcases List.mem_map.1 h with ⟨a, _, heq⟩
  injection heq with h1 h2
  subst h1
  exact h2.symm

/-- Evaluation of the neighborhoods of exUir without a save cap. -/
theorem py_matrix_exUir_none_eval :
    _py_matrix (some 0) none exUir
      = [(0, [(1, 1), (2, 2)]), (1, [(0, 1), (2, 2)]), (2, [(0, 2), (1, 2)])] := by
  norm_num [_py_matrix, firstSeenItems, exUir, sim_row, groupSums, joinedNE, joinedRows,
    itemRows, sortedKeys, insertAsc, nlargest, simGE]

/-- Evaluation of the neighborhoods of exUir with save cap 1. -/
theorem py_matrix_exUir_one_eval :
    _py_matrix (some 0) (some 1) exUir
      = [(0, [(2, 2)]), (1, [(2, 2)]), (2, [(0, 2)])] := by
  norm_num [_py_matrix, firstSeenItems, exUir, sim_row, groupSums, joinedNE, joinedRows,
    itemRows, sortedKeys, insertAsc, nlargest, simGE]

/-- C4 counterexample: with save_neighbors unset, target 0 of exUir gets the
neighbor list [(1, 1), (2, 2)] in ascending item order, which is not
descending by similarity. -/
theorem sim_row_unsorted_when_unset :
    (0, [((1 : ℕ), (1 : ℚ)), (2, 2)]) ∈ _py_matrix (some 0) none exUir
    ∧ ¬ ([((1 : ℕ), (1 : ℚ)), (2, 2)] : List (ℕ × ℚ)).Pairwise simGE := by
  constructor
  · simp [py_matrix_exUir_none_eval]
  · intro hctr
    have h2 := (List.pairwise_cons.1 hctr).1 (2, 2) (by simp)
    norm_num [simGE] at h2

/-- C4 amended: each item's neighbor list is sorted descending by
similarity when save_neighbors is set (nlargest sorts it); with
save_neighbors unset the list is in strictly ascending neighbor-identifier
order, the groupby key order, and not generally sorted by similarity. -/
theorem sim_matrix_sorted (minSim : Option ℚ) (uir : List Rating) (t : ℕ) (k : ℕ)
    (nbrsK nbrsU : List (ℕ × ℚ))
    (hk : (t, nbrsK) ∈ _py_matrix minSim (some k) uir)
    (hu : (t, nbrsU) ∈ _py_matrix minSim none uir) :
    nbrsK.Pairwise simGE ∧ nbrsU.Pairwise (fun a b => a.1 < b.1) := by
  have ek := mem_py_matrix hk
  have eu := mem_py_matrix hu
  subst ek
  subst eu
  constructor
  · cases minSim <;> simp only [sim_row] <;> exact sorted_nlargest _ _
  · have hg : (groupSums (joinedNE uir t)).Pairwise (fun a b => a.1 < b.1) := by
      unfold groupSums
      exact List.Pairwise.map _ (fun a b hab => hab) (pairwise_sortedKeys _)
    cases minSim with
    | none => simpa [sim_row] using hg
    | some m =>
      simp only [sim_row]
      exact hg.sublist (List.filter_sublist _)

/-- Witness for C4 amended on exUir: capped list sorted descending, uncapped
list ascending by item. -/
theorem sim_matrix_sorted_witness :
    ([((2 : ℕ), (2 : ℚ))] : List (ℕ × ℚ)).Pairwise simGE
    ∧ ([((1 : ℕ), (1 : ℚ)), (2, 2)] : List (ℕ × ℚ)).Pairwise (fun a b => a.1 < b.1) :=
  sim_matrix_sorted (some 0) exUir 0 1 [(2, 2)] [(1, 1), (2, 2)]
    (by simp [py_matrix_exUir_one_eval]) (by simp [py_matrix_exUir_none_eval])

/-- C5. Every stored similarity is at least the minimum similarity when one
is set, and each neighbor list is no longer than save_neighbors when that
cap is set. -/
theorem sim_matrix_pruning (minSim : Option ℚ) (saveNbrs : Option ℕ) (uir : List Rating)
    (t : ℕ) (nbrs : List (ℕ × ℚ)) (h : (t, nbrs) ∈ _py_matrix minSim saveNbrs uir) :
    (∀ m, minSim = some m → ∀ p ∈ nbrs, m ≤ p.2)
    ∧ (∀ k, saveNbrs = some k → nbrs.length ≤ k) := by
  have e := mem_py_matrix h
  subst e
  constructor
  · intro m hm p hp
    exact (mem_sim_row hp).2 m hm
  · intro k hk
    subst hk
    cases minSim <;> simp only [sim_row, nlargest] <;> exact List.length_take_le _ _

/-- Witness for C5 on exUir with minimum similarity 0 and cap 1. -/
theorem sim_matrix_pruning_witness :
    ((0 : ℚ) ≤ (2 : ℚ)) ∧ ([((2 : ℕ), (2 : ℚ))] : List (ℕ × ℚ)).length ≤ 1 :=
  ⟨(sim_matrix_pruning (some 0) (some 1) exUir 0 [(2, 2)]
        (by simp [py_matrix_exUir_one_eval])).1 0 rfl (2, 2) (by simp),
   (sim_matrix_pruning (some 0) (some 1) exUir 0 [(2, 2)]
        (by simp [py_matrix_exUir_one_eval])).2 1 rfl⟩

/-- C10. No item ever appears in its own neighbor list: the join rows
pairing an item with its own ratings are removed before the sums. -/
theorem sim_row_excludes_self (minSim : Option ℚ) (saveNbrs : Option ℕ) (uir : List Rating)
    (t : ℕ) (nbrs : List (ℕ × ℚ)) (h : (t, nbrs) ∈ _py_matrix minSim saveNbrs uir)
    (p : ℕ × ℚ) (hp : p ∈ nbrs) : p.1 ≠ t := by
  have e := mem_py_matrix h
  subst e
  have h1 := (mem_sim_row hp).1
  have h2 := mem_groupSums_key h1
  rcases List.mem_map.1 h2 with ⟨q, hq, hqe⟩
  have hne : q.tgt_item ≠ q.item := by
    have hbeq := List.of_mem_filter hq
    simpa using hbeq
  have ht : q.tgt_item = t := joinedRows_tgt (List.mem_of_mem_filter hq)
  rw [← hqe, ← ht]
  exact fun hcon => hne hcon.symm

/-- Witness for C10 on exUir: the stored neighbor 2 of item 0 is not 0. -/
theorem sim_row_excludes_self_witness :
    (((2 : ℕ), (2 : ℚ)) : ℕ × ℚ).1 ≠ 0 :=
  sim_row_excludes_self (some 0) (some 1) exUir 0 [(2, 2)]
    (by simp [py_matrix_exUir_one_eval]) (2, 2) (by simp)

/-! ## Theorems: prediction -/

/-- Searching a key-tagged map for a present key finds that key's entry. -/
theorem find_map_self {α : Type} (v : ℕ → α) (t : ℕ) :
    ∀ (s : List ℕ), t ∈ s →
      (s.map (fun a => (a, v a))).find? (fun p => p.1 == t) = some (t, v t) := by
  intro s
  induction s with
  | nil => intro h; cases h
  | cons a s ih =>
    intro h
    by_cases hat : a = t
    · subst hat
      simp [List.find?]
    · have ht : t ∈ s := by
        rcases List.mem_cons.1 h with rfl | h2
        · exact absurd rfl hat
        · exact h2
      simp only [List.map_cons, List.find?]
      rw [show (((a, v a) : ℕ × α).1 == t) = false by simpa using hat]
      exact ih ht

/-- Cap output rows are rows of the input. -/
theorem mem_capRows {maxN : Option ℕ} {g : Pairs} {p : ℕ × ℚ} (hp : p ∈ capRows maxN g) :
    p ∈ g := by
  cases maxN with
  | none => exact hp
  | some k =>
    simp only [capRows] at hp
    rcases List.mem_map.1 hp with ⟨q, hq, rfl⟩
    exact List.snd_mem_of_mem_enumFrom (by simpa [List.enum] using List.mem_of_mem_filter hq)

/-- Usable neighbors are rated by the user. -/
theorem mem_usableNbrs {sim : List (ℕ × Pairs)} {ratKeys : List ℕ} {t : ℕ} {p : ℕ × ℚ}
    (hp : p ∈ usableNbrs sim ratKeys t) : p.1 ∈ ratKeys := by
  have h := List.of_mem_filter hp
  simpa using h

/-- Looking an item up in the centered ratings is looking it up in the raw
ratings and centering the value found. -/
theorem lookupC_centerRatings (means : Pairs) (rats : Pairs) (n : ℕ) :
    lookupC (centerRatings means rats) n
      = (rats.find? (fun p => p.1 == n)).map
          (fun p => (meanOf means p.1).map (fun m => p.2 - m)) := by
  unfold lookupC centerRatings
  induction rats with
  | nil => rfl
  | cons a l ih =>
    simp only [List.map_cons, List.find?]
    cases hb : (a.1 == n) with
    | true => simp
    | false => simpa using ih

/-- A key present among the rating items is found by find?, and the entry
found carries that key. -/
theorem find?_isSome_of_key {rats : Pairs} {n : ℕ} (h : n ∈ rats.map (fun p => p.1)) :
    ∃ e, rats.find? (fun p => p.1 == n) = some e ∧ e.1 = n := by
  induction rats with
  | nil => simp at h
  | cons a l ih =>
    by_cases han : a.1 = n
    · refine ⟨a, ?_, han⟩
      simp only [List.find?]
      rw [show (a.1 == n) = true by simpa using han]
    · have h2 : n ∈ l.map (fun p => p.1) := by
        have h' := h
        rw [List.map_cons] at h'
        rcases List.mem_cons.1 h' with h3 | h3
        · exact absurd h3.symm han
        · exact h3
      rcases ih h2 with ⟨e, he1, he2⟩
      refine ⟨e, ?_, he2⟩
      simp only [List.find?]
      rw [show (a.1 == n) = false by simpa using han]
      exact he1

/-- The numerator term of the embedded predict equals the spec's similarity
times centered-rating product, for any neighbor the user rated whose item
has a mean. -/
theorem contribution_eq (means : Pairs) (rats : Pairs) (p : ℕ × ℚ)
    (hk : p.1 ∈ rats.map (fun q => q.1))
    (hmean : ∀ q ∈ rats, (meanOf means q.1).isSome) :
    (match lookupC (centerRatings means rats) p.1 with
      | some (some c) => p.2 * c
      | _ => 0)
      = p.2 * (ratValue rats p.1 - (meanOf means p.1).getD 0) := by
  rcases find?_isSome_of_key hk with ⟨e, he, hekey⟩
  have hes : e ∈ rats := List.mem_of_find?_eq_some he
  rcases Option.isSome_iff_exists.1 (hmean e hes) with ⟨mu, hmu⟩
  rw [lookupC_centerRatings, he]
  rw [ratValue, he, ← hekey, hmu]
  simp [hmu]

/-- C6. For every candidate item of the candidate set with at least
min_neighbors usable neighbors (min_neighbors at least one, as the
constructor documents), and a well-formed lookup state (distinct candidate
items, distinct rated items, means available for the target and for every
rated item), predict returns exactly the spec formula: the similarity
weighted average of the neighbors' mean-centered ratings plus the target
item's mean, sums ranging over the usable neighbors after the cap. -/
theorem predict_score_formula (min_nbrs : ℕ) (maxN : Option ℕ) (model : IIModel)
    (user : ℕ) (items : List ℕ) (ratings? : Option Pairs) (t : ℕ)
    (hnd : items.Nodup)
    (hrnd : ((ratsOf model user ratings?).map (fun p => p.1)).Nodup)
    (ht : t ∈ items)
    (h1 : 1 ≤ min_nbrs)
    (hc : min_nbrs ≤ usableCount maxN model.sim_matrix
        ((ratsOf model user ratings?).map (fun p => p.1)) t)
    (hmt : (meanOf model.item_means t).isSome)
    (hall : ∀ p ∈ ratsOf model user ratings?, (meanOf model.item_means p.1).isSome) :
    resultLookup (predict min_nbrs maxN model user items ratings?).1 t
      = some (some (specScore model (ratsOf model user ratings?) maxN t)) := by
  have hglen : 1 ≤ (capRows maxN (usableNbrs model.sim_matrix
      ((ratsOf model user ratings?).map (fun p => p.1)) t)).length := le_trans h1 hc
  have hne : (capRows maxN (usableNbrs model.sim_matrix
      ((ratsOf model user ratings?).map (fun p => p.1)) t)).isEmpty = false := by
    cases hgl : capRows maxN (usableNbrs model.sim_matrix
        ((ratsOf model user ratings?).map (fun p => p.1)) t) with
    | nil => rw [hgl] at hglen; simp at hglen
    | cons a l => rfl
  have htsc : t ∈ sortedKeys (items.filter (fun a =>
      !(capRows maxN (usableNbrs model.sim_matrix
          ((ratsOf model user ratings?).map (fun p => p.1)) a)).isEmpty)) := by
    rw [mem_sortedKeys]
    refine List.mem_filter.2 ⟨ht, ?_⟩
    rw [hne]
    rfl
  have hunf : (predict min_nbrs maxN model user items ratings?).1
      = (sortedKeys (items.filter (fun a =>
          !(capRows maxN (usableNbrs model.sim_matrix
              ((ratsOf model user ratings?).map (fun p => p.1)) a)).isEmpty))).map
        (fun a => (a, predScore model
            (centerRatings model.item_means (ratsOf model user ratings?))
            (capRows maxN (usableNbrs model.sim_matrix
              ((ratsOf model user ratings?).map (fun p => p.1)) a)) a)) := rfl
  rw [resultLookup, hunf, find_map_self _ t _ htsc]
  have hval : predScore model (centerRatings model.item_means (ratsOf model user ratings?))
      (capRows maxN (usableNbrs model.sim_matrix
        ((ratsOf model user ratings?).map (fun p => p.1)) t)) t
      = some (specScore model (ratsOf model user ratings?) maxN t) := by
    rcases Option.isSome_iff_exists.1 hmt with ⟨mt, hmtv⟩
    unfold predScore specScore
    have hnum : (capRows maxN (usableNbrs model.sim_matrix
          ((ratsOf model user ratings?).map (fun p => p.1)) t)).map
          (fun p => (match lookupC (centerRatings model.item_means
              (ratsOf model user ratings?)) p.1 with
            | some (some c) => p.2 * c
            | _ => 0))
        = (capRows maxN (usableNbrs model.sim_matrix
            ((ratsOf model user ratings?).map (fun p => p.1)) t)).map
          (fun p => p.2 * (ratValue (ratsOf model user ratings?) p.1
              - (meanOf model.item_means p.1).getD 0)) := by
      refine List.map_congr_left ?_
      intro p hp
      exact contribution_eq model.item_means (ratsOf model user ratings?) p
        (mem_usableNbrs (mem_capRows hp)) hall
    rw [hnum, hmtv]
    simp
  rw [hval]
  rfl

/-- Witness for C6 on exModel: item 2 with the single usable neighbor 1. -/
theorem predict_score_formula_witness :
    resultLookup (predict 1 none exModel 0 [2] (some [(1, 4)])).1 2
      = some (some (specScore exModel [(1, 4)] none 2)) :=
  predict_score_formula 1 none exModel 0 [2] (some [(1, 4)]) 2
    (by simp) (by simp [ratsOf]) (by simp) (by decide)
    (by norm_num [usableCount, capRows, usableNbrs, simOf, ratsOf, exModel])
    (by norm_num [meanOf, exModel])
    (by norm_num [ratsOf, meanOf, exModel])

/-- C1: with min_neighbors set to 2 and only one usable neighbor for item 2,
predict still returns the numeric score 4 for item 2 instead of omitting
it: the embedded predict (like the source) never consults min_neighbors. -/
theorem predict_ignores_min_neighbors :
    usableCount none exModel.sim_matrix [1] 2 = 1
    ∧ resultLookup (predict 2 none exModel 0 [2] (some [(1, 4)])).1 2 = some (some 4) := by
  constructor
  · norm_num [usableCount, capRows, usableNbrs, simOf, exModel]
  · norm_num [predict, predScore, resultLookup, ratsOf, centerRatings, meanOf, usableNbrs,
      simOf, capRows, lookupC, sortedKeys, insertAsc, exModel]

/-- C2 counterexample: predict with a caller-supplied ratings vector hands
back that buffer mean-centered: the entry (1, 5) has become (1, 2) under
the item mean 3, so the caller's vector is not unchanged. -/
theorem predict_mutates_supplied_ratings :
    (predict 1 none exModel3 0 [2] (some [(1, 5)])).2 = some [(1, some 2)]
    ∧ ([((1 : ℕ), some (2 : ℚ))] ≠ [((1 : ℕ), some (5 : ℚ))]) := by
  constructor
  · norm_num [predict, ratsOf, centerRatings, meanOf, exModel3]
  · norm_num

/-- C2 amended: predict leaves the model untouched and its result is a
function of the model and the input ratings, but a caller-supplied ratings
vector is mutated in place by the mean-centering: after the call it holds,
per entry, the original value minus the item mean (keys unchanged). -/
theorem predict_centers_in_place (min_nbrs : ℕ) (maxN : Option ℕ) (model : IIModel)
    (user : ℕ) (items : List ℕ) (rats : Pairs) :
    (predict min_nbrs maxN model user items (some rats)).2
        = some (centerRatings model.item_means rats)
    ∧ (centerRatings model.item_means rats).map (fun p => p.1) = rats.map (fun p => p.1) := by
  constructor
  · rfl
  · unfold centerRatings
    rw [List.map_map]
    rfl

end LensKit
